import Mathlib

/-!
A shallow embedding of `gradio/queue.py` (the admission-and-dispatch queue of
the serving backend): the `Queue` state, admission (`push`), batch formation
(`get_events_in_batch`), the dispatch step of `start_processing`, the latency
estimator (`update_estimation` / `get_estimation` / `send_estimation`) and the
per-batch processor `process_events`, together with theorems checking the
specification's statements about them.

Modelling conventions, chosen to mirror the Python source:
* Python `float` durations/averages become `ℚ` (exact arithmetic; the claims
  under study are about which values flow where, not about rounding of IEEE
  floats).
* Python object identity of `Event` instances is represented by an `id : ℕ`
  field; the `Event` class defines no `__eq__`, so `in` / `list.remove` /
  `list.index` compare by identity, which coincides with structural equality
  as long as distinct live events get distinct ids.
* `await` points are modelled explicitly so that an exception or a client
  disconnect can be injected at any suspension point (`stepAwait`).
* External collaborators (websocket sends/receives, the prediction endpoint)
  are oracles: a per-client outcome oracle and a list of prediction responses.
-/

namespace Gradio

/-- Stand-in for `gradio.dataclasses.PredictBody`: the request payload a client
sends back after a `send_data` message.  Its internal structure is irrelevant
to the claims; only presence/absence (`Optional` in the source) is observable
here. -/
structure PredictBody where
  payload : Nat
deriving DecidableEq

/-- `Event` from `queue.py`: one client request bound to a websocket.  The
websocket handle itself is abstracted away; `id` stands for Python object
identity (see module comment).  `fn_index` is `int | None` in the source and a
lookup with `None` would raise; the claims only concern events carrying a valid
endpoint index, so it is a `ℕ` here. -/
structure Event where
  id : Nat
  data : Option PredictBody := none
  lost_connection_time : Option ℚ := none
  fn_index : Nat
  session_hash : String := "foo"
  token : Option String := none
deriving DecidableEq

/-- One entry of the externally supplied `blocks_dependencies` table: the
per-endpoint batching flag and maximum batch size.  `max_batch_size` is a
Python `int`, hence `ℤ` (the source computes `max_batch_size - 1` and uses it
as a slice bound, where negative values have Python slice semantics). -/
structure BlockDep where
  batch : Bool
  max_batch_size : Int
deriving DecidableEq

/-- Python `xs[:n]` for an `int` bound `n`: a negative bound counts from the
end (`max 0 (len + n)` elements). -/
def pythonTake (n : Int) (l : List α) : List α :=
  if n < 0 then l.take (l.length - n.natAbs) else l.take n.toNat

/-- Number of occurrences of `x` in `l` (Python `list.count`, and the measure
used to speak about how many slots hold a given batch). -/
def countOcc [DecidableEq α] (x : α) (l : List α) : Nat :=
  (l.filter (fun y => decide (y = x))).length

/-- Truncation of a Python `float` by `int(.)` (and by pydantic v1 coercion
into an `int` field): rounding toward zero. -/
def pyInt (x : ℚ) : Int :=
  if x < 0 then ⌈x⌉ else ⌊x⌋

/-- The `Estimation` pydantic model.  `rank_eta` is declared `Optional[int]`
and `queue_eta` is declared `int` in the source; pydantic v1 coerces values
passed to the *constructor* into the field type (for `int`: truncation), but
plain attribute assignment after construction is not validated (the model
declares no `validate_assignment` config), so an assigned field keeps the raw
value.  To make both behaviours expressible, `rank_eta` is stored here as the
raw rational that ends up in the serialized message, and `queue_eta` as the
`ℤ` the constructor produced. -/
structure Estimation where
  rank : Option Int := none
  queue_size : Int
  avg_event_process_time : Option ℚ
  avg_event_concurrent_process_time : Option ℚ
  rank_eta : Option ℚ := none
  queue_eta : Int
deriving DecidableEq

/-- The mutable state of `Queue.__init__` (fields that the claims touch; the
purely cosmetic ones — `server_path`, `access_token`, `events_pending_reconnection`,
`sleep_when_free`, `update_intervals`, `data_gathering_start`, `live_updates` —
are kept where they exist but play no role).  `clock` models `time.time()`:
it advances by the duration of each prediction call. -/
structure Queue where
  event_queue : List Event
  stopped : Bool
  max_thread_count : Nat
  active_jobs : List (Option (List Event))
  duration_history_total : ℚ
  duration_history_count : Nat
  avg_process_time : Option ℚ
  avg_concurrent_process_time : Option ℚ
  queue_duration : ℚ
  live_updates : Bool
  max_size : Option Nat
  blocks_dependencies : Nat → BlockDep
  clock : ℚ

/-- `Queue.__init__`. -/
def Queue.init (live_updates : Bool) (concurrency_count : Nat)
    (max_size : Option Nat) (blocks_dependencies : Nat → BlockDep) : Queue where
  event_queue := []
  stopped := false
  max_thread_count := concurrency_count
  active_jobs := List.replicate concurrency_count none
  duration_history_total := 0
  duration_history_count := 0
  avg_process_time := none
  avg_concurrent_process_time := none
  queue_duration := 1
  live_updates := live_updates
  max_size := max_size
  blocks_dependencies := blocks_dependencies
  clock := 0

/-- `Queue.push`: reject (return `none`) when bounded and already at or above
the bound, else append and return the pre-insertion length. -/
def Queue.push (q : Queue) (event : Event) : Option Nat × Queue :=
  let queue_len := q.event_queue.length
  match q.max_size with
  | some m =>
      if queue_len ≥ m then (none, q)
      else (some queue_len, { q with event_queue := q.event_queue ++ [event] })
  | none => (some queue_len, { q with event_queue := q.event_queue ++ [event] })

/-- `Queue.clean_event`: remove the event from the queue if present
(`list.remove` of the first occurrence), no-op otherwise. -/
def Queue.clean_event (q : Queue) (event : Event) : Queue :=
  { q with event_queue := q.event_queue.erase event }

/-- `Queue.get_events_in_batch`.  On an empty queue: `(None, False)`.
Otherwise pop the front event; if its endpoint is batching-enabled, select the
first `max_batch_size - 1` further events with the same `fn_index` (a Python
slice, hence `pythonTake`), remove exactly those from the queue
(`list.remove`, i.e. `List.erase`, per selected event), and return the batch. -/
def Queue.get_events_in_batch (q : Queue) : (Option (List Event) × Bool) × Queue :=
  match q.event_queue with
  | [] => ((none, false), q)
  | first_event :: rest =>
      let event_fn_index := first_event.fn_index
      let dep := q.blocks_dependencies event_fn_index
      if dep.batch then
        let rest_of_batch :=
          pythonTake (dep.max_batch_size - 1)
            (rest.filter (fun e => decide (e.fn_index = event_fn_index)))
        ((some (first_event :: rest_of_batch), true),
          { q with event_queue := rest_of_batch.foldl List.erase rest })
      else
        ((some [first_event], false), { q with event_queue := rest })

/-- `Queue.update_estimation`: accumulate the duration, recompute both
averages and the queue ETA (the latter using the queue length *now*). -/
def Queue.update_estimation (q : Queue) (duration : ℚ) : Queue :=
  let total := q.duration_history_total + duration
  let count := q.duration_history_count + 1
  let avg := total / (count : ℚ)
  let conc := avg / ((min q.max_thread_count count : Nat) : ℚ)
  { q with
    duration_history_total := total
    duration_history_count := count
    avg_process_time := some avg
    avg_concurrent_process_time := some conc
    queue_duration := conc * (q.event_queue.length : ℚ) }

/-- `Queue.get_estimation`: build the `Estimation` pydantic model.  The
constructor coerces `queue_duration` into the `int` field `queue_eta`
(pydantic v1 truncation); `rank` and `rank_eta` keep their `None` defaults. -/
def Queue.get_estimation (q : Queue) : Estimation where
  queue_size := q.event_queue.length
  avg_event_process_time := q.avg_process_time
  avg_event_concurrent_process_time := q.avg_concurrent_process_time
  queue_eta := pyInt q.queue_duration

/-- `Queue.send_estimation` (the part that fills the per-event fields of the
message; the actual websocket send is outside the claims).  `rank` is
assigned; `rank_eta` is computed only when `avg_concurrent_process_time` is
set, with one extra `avg_concurrent_process_time` added when no slot is free.
These are plain attribute assignments on the pydantic model, which are *not*
validated/coerced (no `validate_assignment` config), so `rank_eta` keeps the
raw rational value.  In the source `avg_process_time` is never `None` when
`avg_concurrent_process_time` is set (both are written together), hence the
`getD 0`. -/
def Queue.send_estimation (q : Queue) (estimation : Estimation) (rank : Nat) :
    Estimation :=
  let estimation := { estimation with rank := some (rank : Int) }
  match q.avg_concurrent_process_time with
  | none => estimation
  | some conc =>
      let rank_eta := (rank : ℚ) * conc + q.avg_process_time.getD 0
      let rank_eta :=
        if none ∈ q.active_jobs then rank_eta else rank_eta + conc
      { estimation with rank_eta := some rank_eta }

/-- `active_jobs[active_jobs.index(events)] = None`: blank out the first cell
holding this batch.  (If no cell holds it the source raises `ValueError`; that
case is unreachable for a dispatched batch and the model leaves the table
unchanged there.) -/
def releaseSlot (jobs : List (Option (List Event))) (events : List Event) :
    List (Option (List Event)) :=
  match jobs with
  | [] => []
  | c :: rest =>
      if c = some events then none :: rest else c :: releaseSlot rest events

/-- `active_jobs[active_jobs.index(None)] = events`: store the batch in the
first free cell (the dispatcher only does this after checking
`None in active_jobs`). -/
def storeFirstFree (jobs : List (Option (List Event))) (events : List Event) :
    List (Option (List Event)) :=
  match jobs with
  | [] => []
  | c :: rest =>
      if c = none then some events :: rest else c :: storeFirstFree rest events

/-- One productive iteration of the `start_processing` dispatch loop: if the
queue is non-empty and a slot is free, extract a batch (under the delete lock)
and claim the first free slot for it; the returned pair is the launched
`process_events` argument, `none` when nothing was dispatched. -/
def dispatchOnce (q : Queue) : Queue × Option (List Event × Bool) :=
  if q.event_queue.isEmpty then (q, none)
  else if (none : Option (List Event)) ∈ q.active_jobs then
    let r := q.get_events_in_batch
    match r.1.1 with
    | some events =>
        ({ r.2 with active_jobs := storeFirstFree r.2.active_jobs events },
          some (events, r.1.2))
    | none => (r.2, none)
  else (q, none)

/-! ## The per-batch processor `process_events`

The body of `process_events` is a straight-line `async` function over the
shared `Queue` state.  It is embedded as an explicit state-passing program:

* `PResponse` is the oracle's description of one prediction call: the
  `Request` wrapper of the source never raises (failures surface as
  `has_exception`); `duration` is the wall-clock time that call takes
  (`time.time()` advances by it), and `payload` abstracts `response.json`
  (the claims never look inside the json beyond `is_generating`).
* `ClientO` is the oracle for one client's behaviour during data gathering:
  whether the `send_data` send works, whether the reply arrives, and whether
  the `process_starts` send works.  Failed sends trigger `clean_event`, as in
  the source.  Sends after `process_starts` are modelled as succeeding — a
                failure there only triggers one more `clean_event` and changes
  nothing the claims observe.
* `fuel` injects an `InternalProcessingFault`: `some n` raises an exception at
  the n-th `await` point of the body; `none` means no exception.
* The `sys.version_info < (3, 8)` compatibility ping inside the generating
  loop is skipped (the model is a modern interpreter). -/

/-- One response of the external prediction endpoint. -/
structure PResponse where
  has_exception : Bool := false
  exn_detail : String := ""
  status : Nat := 200
  is_generating : Bool := false
  payload : Nat := 0
  duration : ℚ := 0
deriving DecidableEq

/-- Wire messages sent to a client (`process_completed_error` is the
`process_completed` message of the upstream-error branch, whose output is the
error detail instead of data). -/
inductive QMsg where
  | send_data : QMsg
  | process_starts : QMsg
  | process_generating (payload : Nat) (success : Bool) : QMsg
  | process_completed (payload : Nat) (success : Bool) : QMsg
  | process_completed_error (detail : String) : QMsg
deriving DecidableEq

/-- Outcome of the data-gathering interaction with one client: the
`send_data` send fails, or the send works but the reply never arrives
(`get_message` returns `None`, and — as in the source — gathering still
reports the client awake, with `event.data` left unset), or everything
works. -/
inductive GatherOutcome where
  | sendFail : GatherOutcome
  | recvFail : GatherOutcome
  | ok : GatherOutcome
deriving DecidableEq

/-- Per-client oracle (looked up by event id). -/
structure ClientO where
  gather : GatherOutcome
  starts_ok : Bool

/-- All clients behave: payloads present or deliverable, all sends succeed. -/
def healthyClient : Nat → ClientO := fun _ => ⟨GatherOutcome.ok, true⟩

/-- Running state of one `process_events` execution: the shared queue, the
trace of successfully sent messages (event id, message), the `awake_events`
accumulator (declared before the `try`, hence visible to `finally` even after
an exception) and the exception fuel. -/
structure PEState where
  q : Queue
  trace : List (Nat × QMsg)
  awake : List Event
  fuel : Option Nat

/-- Result of a step of the body: normal value, exception (the `finally`
still runs on the carried state), or a run the oracle does not describe
(response list exhausted while the endpoint keeps generating – the source
would keep polling, so no exit of `process_events` happens). -/
inductive StepRes (α : Type) where
  | ok (a : α) (s : PEState) : StepRes α
  | exn (s : PEState) : StepRes α
  | diverge : StepRes α

/-- Sequencing of steps. -/
def bindS : StepRes α → (α → PEState → StepRes β) → StepRes β
  | StepRes.ok a s, f => f a s
  | StepRes.exn s, _ => StepRes.exn s
  | StepRes.diverge, _ => StepRes.diverge

/-- The state carried by a finished (normally or exceptionally) step. -/
def StepRes.resState : StepRes α → Option PEState
  | StepRes.ok _ s => some s
  | StepRes.exn s => some s
  | StepRes.diverge => none

/-- One `await` point: the injected exception fires when the fuel hits 0. -/
def stepAwait (s : PEState) : StepRes Unit :=
  match s.fuel with
  | some 0 => StepRes.exn s
  | some (n + 1) => StepRes.ok () { s with fuel := some n }
  | none => StepRes.ok () s

/-- `Queue.send_message`: one websocket send.  On success the message lands in
the trace; on failure (`okO = false`) the event is cleaned from the queue and
`False` is returned. -/
def sendMessage (e : Event) (m : QMsg) (okO : Bool) (s : PEState) : StepRes Bool :=
  bindS (stepAwait s) (fun _ s1 =>
    if okO then
      StepRes.ok true { s1 with trace := s1.trace ++ [(e.id, m)] }
    else
      StepRes.ok false { s1 with q := s1.q.clean_event e })

/-- `Queue.gather_event_data`: nothing to do when the payload is present;
otherwise ask the client for it.  A failed `send_data` send reports the
client gone; a failed receive cleans the event *but still returns True* with
`event.data` left `None` (exactly the source's control flow). -/
def gatherEventData (co : ClientO) (e : Event) (s : PEState) :
    StepRes (Bool × Event) :=
  match e.data with
  | some _ => StepRes.ok (true, e) s
  | none =>
      match co.gather with
      | GatherOutcome.sendFail =>
          bindS (sendMessage e QMsg.send_data false s) (fun _ s1 =>
            StepRes.ok (false, e) s1)
      | GatherOutcome.recvFail =>
          bindS (sendMessage e QMsg.send_data true s) (fun _ s1 =>
            bindS (stepAwait s1) (fun _ s2 =>
              StepRes.ok (true, e) { s2 with q := s2.q.clean_event e }))
      | GatherOutcome.ok =>
          bindS (sendMessage e QMsg.send_data true s) (fun _ s1 =>
            bindS (stepAwait s1) (fun _ s2 =>
              StepRes.ok (true, { e with data := some ⟨e.id⟩ }) s2))

/-- One iteration of the gathering loop of `process_events`: gather, then
`process_starts`, then append to `awake_events` when both succeeded. -/
def gatherOne (co : ClientO) (e : Event) (s : PEState) : StepRes Unit :=
  bindS (gatherEventData co e s) (fun r s1 =>
    bindS (if r.1 then sendMessage r.2 QMsg.process_starts co.starts_ok s1
           else StepRes.ok false s1) (fun ok2 s2 =>
      StepRes.ok () (if ok2 then { s2 with awake := s2.awake ++ [r.2] } else s2)))

/-- The gathering loop over the whole batch. -/
def gatherPhase (cO : Nat → ClientO) : List Event → PEState → StepRes Unit
  | [], s => StepRes.ok () s
  | e :: es, s => bindS (gatherOne (cO e.id) e s) (fun _ s1 => gatherPhase cO es s1)

/-- `Queue.call_prediction`: reading `events[0].data` raises when the batch is
empty or the head's payload was never delivered (`dict(None)`); otherwise the
call consumes the next oracle response and the clock advances by its
duration.  (The columnar transposition of batched payloads only shapes the
outbound json, which the claims do not observe.) -/
def callPrediction (awake : List Event) (leg : PResponse) (s : PEState) :
    StepRes PResponse :=
  match awake.head? with
  | none => StepRes.exn s
  | some e0 =>
      if e0.data.isNone then StepRes.exn s
      else
        bindS (stepAwait s) (fun _ s1 =>
          StepRes.ok leg { s1 with q := { s1.q with clock := s1.q.clock + leg.duration } })

/-- Send one message to every awake event (the `for event in awake_events`
send loops of `process_events`). -/
def broadcastMsgs : List Event → QMsg → PEState → StepRes Unit
  | [], _, s => StepRes.ok () s
  | e :: es, m, s => bindS (sendMessage e m true s) (fun _ s1 => broadcastMsgs es m s1)

/-- The `while response.json.get("is_generating", False)` loop, entered with a
generating response `cur`: relay `process_generating` with the previous
response to every awake event, re-issue the prediction call, repeat.  Returns
(`old_response` at loop exit, the final non-generating response). -/
def genLoopRun (awake : List Event) : List PResponse → PResponse → PEState →
    StepRes (PResponse × PResponse)
  | legs, cur, s =>
      bindS (broadcastMsgs awake
              (QMsg.process_generating cur.payload (cur.status == 200)) s) (fun _ s1 =>
        match legs with
        | [] => StepRes.diverge
        | l :: ls =>
            bindS (callPrediction awake l s1) (fun r s2 =>
              if r.is_generating then genLoopRun awake ls r s2
              else StepRes.ok (cur, r) s2))

/-- The `try` body of `process_events`: gathering, early return on an empty
awake set, the prediction call, the three response branches, and the
status-gated estimation update (fed `end_time - begin_time`, the whole
elapsed time since just before the first call). -/
def processBodyRun (cO : Nat → ClientO) (legs : List PResponse)
    (events : List Event) (s : PEState) : StepRes Unit :=
  bindS (gatherPhase cO events s) (fun _ s1 =>
    let awake := s1.awake
    if awake.isEmpty then StepRes.ok () s1
    else
      let begin_time := s1.q.clock
      match legs with
      | [] => StepRes.diverge
      | l1 :: rest =>
          bindS (callPrediction awake l1 s1) (fun response s2 =>
            bindS
              (if response.has_exception then
                bindS (broadcastMsgs awake
                        (QMsg.process_completed_error response.exn_detail) s2)
                  (fun _ s3 => StepRes.ok response s3)
              else if response.is_generating then
                bindS (genLoopRun awake rest response s2) (fun or s3 =>
                  bindS (broadcastMsgs awake
                          (QMsg.process_completed or.1.payload (or.1.status == 200)) s3)
                    (fun _ s4 => StepRes.ok or.2 s4))
              else
                bindS (broadcastMsgs awake
                        (QMsg.process_completed response.payload (response.status == 200)) s2)
                  (fun _ s3 => StepRes.ok response s3))
              (fun fin s5 =>
                if fin.status == 200 then
                  StepRes.ok ()
                    { s5 with q := s5.q.update_estimation (s5.q.clock - begin_time) }
                else StepRes.ok () s5)))

/-- The `finally` block: close the awake events' sockets (best effort, no
state change observable here), blank the slot holding this batch, and clean
any residual queue entries for the awake events (`reset_iterators` is an
external call with no effect on the queue state). -/
def finalizeCleanup (s : PEState) (events : List Event) : Queue :=
  let q1 := { s.q with active_jobs := releaseSlot s.q.active_jobs events }
  { q1 with event_queue := s.awake.foldl List.erase q1.event_queue }

/-- `Queue.process_events`: run the body, then — on normal return *and* on an
exception — the `finally` cleanup.  `none` means the oracle's response list
ran out while the endpoint still reported generating (the call would simply
keep polling; `process_events` does not finish). -/
def Queue.process_events (q : Queue) (cO : Nat → ClientO) (legs : List PResponse)
    (fuel : Option Nat) (events : List Event) (batch : Bool) :
    Option (Queue × List (Nat × QMsg)) :=
  let _ := batch
  let s0 : PEState := { q := q, trace := [], awake := [], fuel := fuel }
  match processBodyRun cO legs events s0 with
  | StepRes.ok _ s => some (finalizeCleanup s events, s.trace)
  | StepRes.exn s => some (finalizeCleanup s events, s.trace)
  | StepRes.diverge => none

/-- The response on which the loop of the generating branch stops: the first
non-generating one. -/
def genFinalAux : PResponse → List PResponse → Option PResponse
  | cur, legs =>
      if cur.is_generating then
        match legs with
        | [] => none
        | l :: ls => genFinalAux l ls
      else some cur

/-- The response whose HTTP status gates the estimation update at the end of
`process_events`: the first response in the upstream-error branch, otherwise
the first non-generating response. -/
def cycleFinal (legs : List PResponse) : Option PResponse :=
  match legs with
  | [] => none
  | l :: ls => if l.has_exception then some l else genFinalAux l ls

/-- Whether a message is of the `process_generating` / `process_completed`
wire kinds (`process_completed_error` is a `process_completed` on the wire,
with the error detail as output). -/
def isGenOrCompleted : QMsg → Bool
  | QMsg.process_generating _ _ => true
  | QMsg.process_completed _ _ => true
  | QMsg.process_completed_error _ => true
  | _ => false

/-- The `process_generating` / `process_completed`-kind messages delivered to
the event with id `eid`, in order. -/
def msgsOfKindTo (eid : Nat) (tr : List (Nat × QMsg)) : List QMsg :=
  (tr.filter (fun x => decide (x.1 = eid) && isGenOrCompleted x.2)).map Prod.snd

/-! ## Theorems -/

/-- Fold a sequence of completed-cycle durations into the estimator. -/
def applyDurations (q : Queue) (ds : List ℚ) : Queue :=
  ds.foldl Queue.update_estimation q

lemma update_estimation_total (q : Queue) (d : ℚ) :
    (q.update_estimation d).duration_history_total = q.duration_history_total + d := rfl

lemma update_estimation_count (q : Queue) (d : ℚ) :
    (q.update_estimation d).duration_history_count = q.duration_history_count + 1 := rfl

lemma applyDurations_spec (ds : List ℚ) : ∀ q : Queue, ds ≠ [] →
    (applyDurations q ds).duration_history_total = q.duration_history_total + ds.sum ∧
    (applyDurations q ds).duration_history_count = q.duration_history_count + ds.length ∧
    (applyDurations q ds).avg_process_time =
      some ((q.duration_history_total + ds.sum) /
        ((q.duration_history_count : ℚ) + (ds.length : ℚ))) ∧
    (applyDurations q ds).avg_concurrent_process_time =
      some (((q.duration_history_total + ds.sum) /
        ((q.duration_history_count : ℚ) + (ds.length : ℚ))) /
          ((min q.max_thread_count (q.duration_history_count + ds.length) : Nat) : ℚ)) := by
  induction ds with
  | nil => intro q h; exact absurd rfl h
  | cons d ds ih =>
      intro q _
      by_cases hds : ds = []
      · subst hds
        refine ⟨?_, ?_, ?_, ?_⟩ <;>
          simp [applyDurations, Queue.update_estimation]
      · have h := ih (q.update_estimation d) hds
        have htot : (applyDurations q (d :: ds)) = applyDurations (q.update_estimation d) ds := rfl
        rw [htot]
        obtain ⟨h1, h2, h3, h4⟩ := h
        refine ⟨?_, ?_, ?_, ?_⟩
        · rw [h1, update_estimation_total]; simp; ring
        · rw [h2, update_estimation_count]; simp; omega
        · rw [h3, update_estimation_total, update_estimation_count]
          simp only [List.sum_cons, List.length_cons]
          congr 1
          push_cast
          ring
        · rw [h4, update_estimation_total, update_estimation_count]
          have hm : (q.update_estimation d).max_thread_count = q.max_thread_count := rfl
          rw [hm]
          have hc : q.duration_history_count + 1 + ds.length =
              q.duration_history_count + (d :: ds).length := by simp; omega
          rw [hc]
          simp only [List.sum_cons, List.length_cons]
          congr 2
          push_cast
          ring

/-- C6: after feeding durations `d1..dn` (n ≥ 1) into a fresh queue whose
concurrency limit is positive (the only situation in which
`update_estimation` is reachable: with zero slots nothing is ever
dispatched), the average process time is the arithmetic mean of the fed
durations and the concurrent average is that mean divided by
`min (concurrency limit) n`. -/
theorem update_estimation_averages (live : Bool) (cc : Nat) (ms : Option Nat)
    (deps : Nat → BlockDep) (ds : List ℚ) (hcc : 1 ≤ cc) (hds : ds ≠ []) :
    (applyDurations (Queue.init live cc ms deps) ds).avg_process_time =
      some (ds.sum / (ds.length : ℚ)) ∧
    (applyDurations (Queue.init live cc ms deps) ds).avg_concurrent_process_time =
      some ((ds.sum / (ds.length : ℚ)) / ((min cc ds.length : Nat) : ℚ)) := by
  have _ := hcc
  have h := applyDurations_spec ds (Queue.init live cc ms deps) hds
  obtain ⟨_, _, h3, h4⟩ := h
  constructor
  · rw [h3]; norm_num [Queue.init]
  · rw [h4]; norm_num [Queue.init]

/-- Witness for C6: durations `[1, 2]` with concurrency limit 2 give
`avg_process_time = 3/2` and `avg_concurrent_process_time = 3/4`. -/
theorem update_estimation_averages_witness :
    (applyDurations (Queue.init false 2 none (fun _ => ⟨false, 0⟩)) [1, 2]).avg_process_time =
      some (3 / 2) ∧
    (applyDurations (Queue.init false 2 none (fun _ => ⟨false, 0⟩)) [1, 2]).avg_concurrent_process_time =
      some (3 / 4) := by
  have h := update_estimation_averages false 2 none (fun _ => ⟨false, 0⟩) [1, 2]
    (by norm_num) (by simp)
  obtain ⟨h1, h2⟩ := h
  norm_num at h1 h2
  exact ⟨h1, h2⟩

/-- C2: `push` appends and returns the pre-insertion length as the rank when
the queue is unbounded or strictly below capacity, and rejects (returning
`none` and leaving the queue untouched) when the length is at or above
`max_size`. -/
theorem push_spec (q : Queue) (e : Event) :
    ((q.max_size = none ∨ ∃ m, q.max_size = some m ∧ q.event_queue.length < m) →
      q.push e = (some q.event_queue.length,
        { q with event_queue := q.event_queue ++ [e] })) ∧
    (∀ m, q.max_size = some m → m ≤ q.event_queue.length →
      q.push e = (none, q)) := by
  constructor
  · rintro (h | ⟨m, hm, hlt⟩)
    · simp [Queue.push, h]
    · simp [Queue.push, hm, Nat.not_le.mpr hlt]
  · intro m hm hle
    simp [Queue.push, hm, hle]

/-- Witness for C2: a queue with `max_size = 1` accepts the first push with
rank 0 and rejects the second. -/
theorem push_spec_witness :
    (Queue.init false 1 (some 1) (fun _ => ⟨false, 0⟩)).push ⟨0, none, none, 0, "foo", none⟩ =
      (some 0,
        { Queue.init false 1 (some 1) (fun _ => ⟨false, 0⟩) with
            event_queue := [⟨0, none, none, 0, "foo", none⟩] }) ∧
    ({ Queue.init false 1 (some 1) (fun _ => ⟨false, 0⟩) with
        event_queue := [⟨0, none, none, 0, "foo", none⟩] }).push ⟨1, none, none, 0, "foo", none⟩ =
      (none,
        { Queue.init false 1 (some 1) (fun _ => ⟨false, 0⟩) with
            event_queue := [⟨0, none, none, 0, "foo", none⟩] }) :=
  ⟨(push_spec (Queue.init false 1 (some 1) (fun _ => ⟨false, 0⟩))
      ⟨0, none, none, 0, "foo", none⟩).1 (Or.inr ⟨1, rfl, by decide⟩),
   (push_spec { Queue.init false 1 (some 1) (fun _ => ⟨false, 0⟩) with
        event_queue := [⟨0, none, none, 0, "foo", none⟩] }
      ⟨1, none, none, 0, "foo", none⟩).2 1 rfl (by decide)⟩

/-- Counterexample for C7: with concurrency limit 2 the first sample `d = 1`
gives both averages 1, but feeding the same duration a second time *changes*
`avg_concurrent_process_time` to `1/2` (`min (limit, 2) = 2` now divides it),
so the averages are not left unchanged by the second identical sample. -/
theorem second_sample_shrinks_concurrent_average :
    ((Queue.init false 2 none (fun _ => ⟨false, 0⟩)).update_estimation 1).avg_process_time =
      some 1 ∧
    ((Queue.init false 2 none (fun _ => ⟨false, 0⟩)).update_estimation 1).avg_concurrent_process_time =
      some 1 ∧
    (((Queue.init false 2 none (fun _ => ⟨false, 0⟩)).update_estimation 1).update_estimation 1).avg_process_time =
      some 1 ∧
    (((Queue.init false 2 none (fun _ => ⟨false, 0⟩)).update_estimation 1).update_estimation 1).avg_concurrent_process_time =
      some (1 / 2) ∧
    some ((1 : ℚ) / 2) ≠ some (1 : ℚ) := by
  norm_num [Queue.init, Queue.update_estimation]

/-- C7 as amended: a single sample `d` yields both averages `d` (when the
concurrency limit is at least 1); a second identical sample leaves
`avg_process_time` at `d` but moves `avg_concurrent_process_time` to
`d / min (limit, 2)` — unchanged only when the limit is 1 (or `d = 0`). -/
theorem estimator_two_samples (live : Bool) (cc : Nat) (ms : Option Nat)
    (deps : Nat → BlockDep) (d : ℚ) (hcc : 1 ≤ cc) :
    ((Queue.init live cc ms deps).update_estimation d).avg_process_time = some d ∧
    ((Queue.init live cc ms deps).update_estimation d).avg_concurrent_process_time = some d ∧
    (((Queue.init live cc ms deps).update_estimation d).update_estimation d).avg_process_time =
      some d ∧
    (((Queue.init live cc ms deps).update_estimation d).update_estimation d).avg_concurrent_process_time =
      some (d / ((min cc 2 : Nat) : ℚ)) := by
  have hmin1 : min cc 1 = 1 := Nat.min_eq_right hcc
  refine ⟨?_, ?_, ?_, ?_⟩
  · simp [Queue.init, Queue.update_estimation]
  · simp [Queue.init, Queue.update_estimation, hmin1]
  · simp [Queue.init, Queue.update_estimation]
  · simp [Queue.init, Queue.update_estimation, hmin1]

/-- Witness for C7 (amended): limit 2, `d = 5`: averages 5 and 5 after one
sample, then 5 and `5/2` after the second. -/
theorem estimator_two_samples_witness :
    ((Queue.init false 2 none (fun _ => ⟨false, 0⟩)).update_estimation 5).avg_process_time =
      some 5 ∧
    ((Queue.init false 2 none (fun _ => ⟨false, 0⟩)).update_estimation 5).avg_concurrent_process_time =
      some 5 ∧
    (((Queue.init false 2 none (fun _ => ⟨false, 0⟩)).update_estimation 5).update_estimation 5).avg_process_time =
      some 5 ∧
    (((Queue.init false 2 none (fun _ => ⟨false, 0⟩)).update_estimation 5).update_estimation 5).avg_concurrent_process_time =
      some ((5 : ℚ) / 2) := by
  have h := estimator_two_samples false 2 none (fun _ => ⟨false, 0⟩) 5 (by norm_num)
  obtain ⟨h1, h2, h3, h4⟩ := h
  refine ⟨h1, h2, h3, ?_⟩
  rw [h4]
  norm_num

/-- C8 as amended: the `queue_eta` of a snapshot equals
`avg_concurrent_process_time` times the queue length *at the time of the most
recent `update_estimation` call* (truncated to `int` by the model's field
type), regardless of how the queue has changed since: `es` below is the queue
content at snapshot time and does not enter the result. -/
theorem queue_eta_uses_stale_length (q : Queue) (d : ℚ) (es : List Event) :
    (Queue.get_estimation { q.update_estimation d with event_queue := es }).queue_eta =
      pyInt ((q.update_estimation d).avg_concurrent_process_time.getD 0 *
        (q.event_queue.length : ℚ)) := by
  simp [Queue.get_estimation, Queue.update_estimation]

/-- Counterexample for C8: complete one cycle of duration 2 while the queue is
empty (`queue_duration := 2 * 0 = 0`), then push one event.  The snapshot then
reports `queue_eta = 0`, while `avg_concurrent_process_time * (current queue
length)` is `2 * 1 = 2`. -/
theorem queue_eta_stale_counterexample :
    (Queue.get_estimation
        (((Queue.init false 1 none (fun _ => ⟨false, 0⟩)).update_estimation 2).push
          ⟨0, none, none, 0, "foo", none⟩).2).queue_eta = 0 ∧
    ((((Queue.init false 1 none (fun _ => ⟨false, 0⟩)).update_estimation 2).push
          ⟨0, none, none, 0, "foo", none⟩).2.avg_concurrent_process_time.getD 0 *
        (((((Queue.init false 1 none (fun _ => ⟨false, 0⟩)).update_estimation 2).push
          ⟨0, none, none, 0, "foo", none⟩).2.event_queue.length : ℚ))) = 2 ∧
    (0 : Int) ≠ pyInt 2 := by
  refine ⟨?_, ?_, ?_⟩
  · norm_num [Queue.get_estimation, Queue.init, Queue.update_estimation, Queue.push, pyInt]
  · norm_num [Queue.init, Queue.update_estimation, Queue.push]
  · norm_num [pyInt]

/-- Counterexample for C9: on a freshly initialized queue — i.e. before any
completed HTTP-OK cycle — the snapshot's `queue_eta` is the *number* 1 (the
initial `queue_duration`), not an absent/`None` value (the pydantic field
`queue_eta: int` is not even optional). -/
theorem fresh_queue_eta_is_one :
    (Queue.get_estimation (Queue.init false 2 (some 10) (fun _ => ⟨false, 0⟩))).queue_eta = 1 ∧
    (1 : Int) ≠ 0 := by
  constructor
  · norm_num [Queue.get_estimation, Queue.init, pyInt]
  · norm_num

/-- C9 as amended: before the first completed cycle (the estimator fields are
still at their `__init__` values, whatever the queue contains),
`avg_event_process_time`, `avg_event_concurrent_process_time` and `rank_eta`
are all reported as `None` — also after `send_estimation` fills in the
per-event fields — while `queue_eta` is reported as the number 1. -/
theorem fresh_estimation_fields (live : Bool) (cc : Nat) (ms : Option Nat)
    (deps : Nat → BlockDep) (es : List Event) (rank : Nat) :
    (Queue.get_estimation
        { Queue.init live cc ms deps with event_queue := es }).avg_event_process_time = none ∧
    (Queue.get_estimation
        { Queue.init live cc ms deps with event_queue := es }).avg_event_concurrent_process_time =
      none ∧
    (Queue.get_estimation { Queue.init live cc ms deps with event_queue := es }).rank_eta =
      none ∧
    (Queue.send_estimation { Queue.init live cc ms deps with event_queue := es }
        (Queue.get_estimation { Queue.init live cc ms deps with event_queue := es })
        rank).rank_eta = none ∧
    (Queue.get_estimation { Queue.init live cc ms deps with event_queue := es }).queue_eta =
      1 := by
  refine ⟨rfl, rfl, rfl, ?_, ?_⟩
  · simp [Queue.send_estimation, Queue.get_estimation, Queue.init]
  · norm_num [Queue.get_estimation, Queue.init, pyInt]

/-- Counterexample for C10: after cycles of durations 1 and 2 with limit 2
(`avg_process_time = 3/2`, `avg_concurrent_process_time = 3/4`), the
`rank_eta` delivered for rank 1 is the raw non-integer `9/4` — the
post-construction attribute assignment in `send_estimation` bypasses the
pydantic `Optional[int]` coercion — so the client does *not* receive just the
integer part (which would be 2). -/
theorem rank_eta_not_truncated :
    (Queue.send_estimation
        (((Queue.init false 2 none (fun _ => ⟨false, 0⟩)).update_estimation 1).update_estimation 2)
        (Queue.get_estimation
          (((Queue.init false 2 none (fun _ => ⟨false, 0⟩)).update_estimation 1).update_estimation 2))
        1).rank_eta = some (9 / 4) ∧
    pyInt (9 / 4) = 2 ∧
    ((9 : ℚ) / 4) ≠ ((2 : Int) : ℚ) := by
  refine ⟨?_, ?_, ?_⟩
  · norm_num [Queue.send_estimation, Queue.get_estimation, Queue.init,
      Queue.update_estimation, List.replicate]
  · norm_num [pyInt]
  · norm_num

/-- C10 as amended: in a delivered snapshot, `queue_eta` *is* coerced to an
integer (truncation toward zero) because it passes through the `Estimation`
constructor, but `rank_eta`, assigned after construction, is delivered as the
raw computed rational (`rank * avg_concurrent + avg_process`, plus one extra
`avg_concurrent` when no slot is free), uncoerced. -/
theorem estimation_int_coercion (q : Queue) :
    (Queue.get_estimation q).queue_eta = pyInt q.queue_duration ∧
    (∀ est : Estimation, ∀ rank : Nat, ∀ conc : ℚ,
      q.avg_concurrent_process_time = some conc →
      (q.send_estimation est rank).rank_eta =
        some (if (none : Option (List Event)) ∈ q.active_jobs then
                (rank : ℚ) * conc + q.avg_process_time.getD 0
              else (rank : ℚ) * conc + q.avg_process_time.getD 0 + conc)) := by
  constructor
  · rfl
  · intro est rank conc hconc
    simp [Queue.send_estimation, hconc]

/-- Witness for C10 (amended), at the same concrete state as the
counterexample: `queue_eta` is the truncation of `queue_duration` and
`rank_eta` is the raw value of the formula. -/
theorem estimation_int_coercion_witness :
    (Queue.get_estimation
        (((Queue.init false 2 none (fun _ => ⟨false, 0⟩)).update_estimation 1).update_estimation 2)).queue_eta =
      pyInt (((Queue.init false 2 none (fun _ => ⟨false, 0⟩)).update_estimation 1).update_estimation 2).queue_duration ∧
    (Queue.send_estimation
        (((Queue.init false 2 none (fun _ => ⟨false, 0⟩)).update_estimation 1).update_estimation 2)
        (Queue.get_estimation
          (((Queue.init false 2 none (fun _ => ⟨false, 0⟩)).update_estimation 1).update_estimation 2))
        1).rank_eta =
      some (if (none : Option (List Event)) ∈
              (((Queue.init false 2 none (fun _ => ⟨false, 0⟩)).update_estimation 1).update_estimation 2).active_jobs then
              (1 : ℚ) * (3 / 4) +
                (((Queue.init false 2 none (fun _ => ⟨false, 0⟩)).update_estimation 1).update_estimation 2).avg_process_time.getD 0
            else (1 : ℚ) * (3 / 4) +
                (((Queue.init false 2 none (fun _ => ⟨false, 0⟩)).update_estimation 1).update_estimation 2).avg_process_time.getD 0 +
                3 / 4) := by
  constructor
  · exact (estimation_int_coercion _).1
  · refine (estimation_int_coercion _).2 _ 1 (3 / 4) ?_
    norm_num [Queue.init, Queue.update_estimation]

lemma pythonTake_sublist (n : Int) (l : List α) : List.Sublist (pythonTake n l) l := by
  unfold pythonTake
  split <;> exact List.take_sublist _ _

lemma pythonTake_length_le_of_nonneg (n : Int) (l : List α) (hn : 0 ≤ n) :
    (pythonTake n l).length ≤ n.toNat := by
  unfold pythonTake
  rw [if_neg (by omega)]
  simp [List.length_take]

lemma foldl_erase_sublist [DecidableEq α] :
    ∀ (sel rest : List α), List.Sublist (sel.foldl List.erase rest) rest := by
  intro sel
  induction sel with
  | nil => intro rest; exact List.Sublist.refl rest
  | cons a sel ih =>
      intro rest
      exact List.Sublist.trans (ih (rest.erase a)) (List.erase_sublist a rest)

/-- C3 as amended (the batching-enabled case requires `max_batch_size ≥ 1`;
see the counterexample for `max_batch_size = 0`): on an empty queue batch
extraction returns "no batch" without touching the state; on a non-empty
queue whose front event's endpoint is batching-enabled with max batch size
`k ≥ 1`, it returns a batch of at most `k` events led by the former front
event, all sharing the front event's endpoint index, selected in queue order
(a sublist of the remaining queue), and the events left in the queue keep
their relative order (they form a sublist of the pre-extraction remainder). -/
theorem get_events_in_batch_spec (q : Queue) :
    (q.event_queue = [] →
      (q.get_events_in_batch).1 = (none, false) ∧ (q.get_events_in_batch).2 = q) ∧
    (∀ first rest, q.event_queue = first :: rest →
      (q.blocks_dependencies first.fn_index).batch = true →
      1 ≤ (q.blocks_dependencies first.fn_index).max_batch_size →
      ∃ sel,
        (q.get_events_in_batch).1.1 = some (first :: sel) ∧
        (first :: sel).length ≤ (q.blocks_dependencies first.fn_index).max_batch_size.toNat ∧
        (∀ e ∈ first :: sel, e.fn_index = first.fn_index) ∧
        List.Sublist sel rest ∧
        List.Sublist (q.get_events_in_batch).2.event_queue rest) := by
  constructor
  · intro h
    simp [Queue.get_events_in_batch, h]
  · intro first rest hq hb hk
    refine ⟨pythonTake ((q.blocks_dependencies first.fn_index).max_batch_size - 1)
      (rest.filter (fun e => decide (e.fn_index = first.fn_index))), ?_, ?_, ?_, ?_, ?_⟩
    · simp [Queue.get_events_in_batch, hq, hb]
    · have h1 := pythonTake_length_le_of_nonneg
        ((q.blocks_dependencies first.fn_index).max_batch_size - 1)
        (rest.filter (fun e => decide (e.fn_index = first.fn_index))) (by omega)
      simp only [List.length_cons]
      omega
    · intro e he
      rcases List.mem_cons.mp he with h | h
      · rw [h]
      · have h2 : e ∈ rest.filter (fun e => decide (e.fn_index = first.fn_index)) :=
          (pythonTake_sublist _ _).subset h
        have := List.of_mem_filter h2
        simpa using this
    · exact List.Sublist.trans (pythonTake_sublist _ _) (List.filter_sublist rest)
    · have h3 : (q.get_events_in_batch).2.event_queue =
          (pythonTake ((q.blocks_dependencies first.fn_index).max_batch_size - 1)
            (rest.filter (fun e => decide (e.fn_index = first.fn_index)))).foldl
            List.erase rest := by
        simp [Queue.get_events_in_batch, hq, hb]
      rw [h3]
      exact foldl_erase_sublist _ rest

/-- Witness for C3 (amended): queue `[a, c, b]` where `a` and `b` target
endpoint 0 (batching-enabled, max batch size 2) and `c` targets endpoint 1:
the extracted batch exists and satisfies all the listed properties. -/
theorem get_events_in_batch_spec_witness :
    ∃ sel,
      (({ Queue.init false 1 none (fun _ => ⟨true, 2⟩) with
          event_queue := [⟨0, none, none, 0, "foo", none⟩, ⟨2, none, none, 1, "foo", none⟩,
            ⟨1, none, none, 0, "foo", none⟩] } : Queue).get_events_in_batch).1.1 =
        some (⟨0, none, none, 0, "foo", none⟩ :: sel) ∧
      ((⟨0, none, none, 0, "foo", none⟩ : Event) :: sel).length ≤
        (({ Queue.init false 1 none (fun _ => ⟨true, 2⟩) with
          event_queue := [⟨0, none, none, 0, "foo", none⟩, ⟨2, none, none, 1, "foo", none⟩,
            ⟨1, none, none, 0, "foo", none⟩] } : Queue).blocks_dependencies
            (⟨0, none, none, 0, "foo", none⟩ : Event).fn_index).max_batch_size.toNat ∧
      (∀ e ∈ (⟨0, none, none, 0, "foo", none⟩ : Event) :: sel,
        e.fn_index = (⟨0, none, none, 0, "foo", none⟩ : Event).fn_index) ∧
      List.Sublist sel [⟨2, none, none, 1, "foo", none⟩, ⟨1, none, none, 0, "foo", none⟩] ∧
      List.Sublist
        (({ Queue.init false 1 none (fun _ => ⟨true, 2⟩) with
          event_queue := [⟨0, none, none, 0, "foo", none⟩, ⟨2, none, none, 1, "foo", none⟩,
            ⟨1, none, none, 0, "foo", none⟩] } : Queue).get_events_in_batch).2.event_queue
        [⟨2, none, none, 1, "foo", none⟩, ⟨1, none, none, 0, "foo", none⟩] :=
  (get_events_in_batch_spec _).2 ⟨0, none, none, 0, "foo", none⟩
    [⟨2, none, none, 1, "foo", none⟩, ⟨1, none, none, 0, "foo", none⟩] rfl (by decide)
    (by decide)

/-- Counterexample for C3: with batching enabled and `max_batch_size = 0`,
the extracted batch on queue `[e]` is `[e]`, of size 1 > 0, so "the returned
batch has size ≤ k" fails for k = 0 (the front event is always included, and
the Python slice bound `max_batch_size - 1 = -1` means "all but the last
matching event", not "none"). -/
theorem get_events_in_batch_k0_counterexample :
    (({ Queue.init false 1 none (fun _ => ⟨true, 0⟩) with
        event_queue := [⟨0, none, none, 0, "foo", none⟩] } : Queue).blocks_dependencies
        (0 : Nat)).batch = true ∧
    (({ Queue.init false 1 none (fun _ => ⟨true, 0⟩) with
        event_queue := [⟨0, none, none, 0, "foo", none⟩] } : Queue).blocks_dependencies
        (0 : Nat)).max_batch_size = 0 ∧
    (({ Queue.init false 1 none (fun _ => ⟨true, 0⟩) with
        event_queue := [⟨0, none, none, 0, "foo", none⟩] } : Queue).get_events_in_batch).1.1.map
        List.length = some 1 ∧
    ¬((1 : Nat) ≤ (0 : Int).toNat) := by
  refine ⟨rfl, rfl, by decide, by decide⟩

/-! ### Frame lemmas for `process_events`

The body of `process_events` never writes `active_jobs`, and writes the
estimator fields only in its final status-gated step.  The following lemmas
establish this by walking the embedding. -/

@[simp] lemma bindS_ok (a : α) (s : PEState) (f : α → PEState → StepRes β) :
    bindS (StepRes.ok a s) f = f a s := rfl

@[simp] lemma bindS_exn (s : PEState) (f : α → PEState → StepRes β) :
    bindS (StepRes.exn s) f = StepRes.exn s := rfl

@[simp] lemma bindS_diverge (f : α → PEState → StepRes β) :
    bindS (StepRes.diverge : StepRes α) f = StepRes.diverge := rfl

@[simp] lemma resState_ok (a : α) (s : PEState) :
    (StepRes.ok a s).resState = some s := rfl

@[simp] lemma resState_exn (s : PEState) :
    (StepRes.exn s : StepRes α).resState = some s := rfl

@[simp] lemma resState_diverge : (StepRes.diverge : StepRes α).resState = none := rfl

/-- Equality of the slot table, the estimator state and the concurrency
limit: the fields of the queue that the body of `process_events` leaves
untouched until its final estimation step. -/
def estEq (a b : Queue) : Prop :=
  b.active_jobs = a.active_jobs ∧
  b.duration_history_total = a.duration_history_total ∧
  b.duration_history_count = a.duration_history_count ∧
  b.avg_process_time = a.avg_process_time ∧
  b.avg_concurrent_process_time = a.avg_concurrent_process_time ∧
  b.queue_duration = a.queue_duration ∧
  b.max_thread_count = a.max_thread_count

/-- `estEq` plus an unchanged clock (everything except prediction calls). -/
def coreEq (a b : Queue) : Prop := estEq a b ∧ b.clock = a.clock

lemma estEq_refl (a : Queue) : estEq a a := ⟨rfl, rfl, rfl, rfl, rfl, rfl, rfl⟩

lemma estEq_trans {a b c : Queue} (h1 : estEq a b) (h2 : estEq b c) : estEq a c := by
  obtain ⟨x1, x2, x3, x4, x5, x6, x7⟩ := h1
  obtain ⟨y1, y2, y3, y4, y5, y6, y7⟩ := h2
  exact ⟨y1.trans x1, y2.trans x2, y3.trans x3, y4.trans x4, y5.trans x5,
    y6.trans x6, y7.trans x7⟩

lemma coreEq_refl (a : Queue) : coreEq a a := ⟨estEq_refl a, rfl⟩

lemma coreEq_trans {a b c : Queue} (h1 : coreEq a b) (h2 : coreEq b c) : coreEq a c :=
  ⟨estEq_trans h1.1 h2.1, h2.2.trans h1.2⟩

lemma coreEq_estEq {a b : Queue} (h : coreEq a b) : estEq a b := h.1

lemma clean_event_coreEq (q : Queue) (e : Event) : coreEq q (q.clean_event e) := by
  exact ⟨⟨rfl, rfl, rfl, rfl, rfl, rfl, rfl⟩, rfl⟩

/-- Chaining preservation through `bindS` for any transitive relation. -/
lemma bindS_pres (P : Queue → Queue → Prop)
    (hPt : ∀ {a b c : Queue}, P a b → P b c → P a c)
    {r : StepRes α} {f : α → PEState → StepRes β} {s : PEState}
    (h1 : ∀ t, r.resState = some t → P s.q t.q)
    (h2 : ∀ a t u, r = StepRes.ok a t → (f a t).resState = some u → P t.q u.q) :
    ∀ u, (bindS r f).resState = some u → P s.q u.q := by
  intro u hu
  cases r with
  | ok a t =>
      exact hPt (h1 t rfl) (h2 a t u rfl (by simpa using hu))
  | exn t =>
      simp at hu
      subst hu
      exact h1 t rfl
  | diverge => simp at hu

lemma stepAwait_q (s : PEState) : ∀ t, (stepAwait s).resState = some t → t.q = s.q := by
  intro t h
  unfold stepAwait at h
  cases hf : s.fuel with
  | none => rw [hf] at h; simp at h; rw [← h]
  | some n =>
      cases n with
      | zero => rw [hf] at h; simp at h; rw [← h]
      | succ m => rw [hf] at h; simp at h; rw [← h]

lemma stepAwait_pres (s : PEState) :
    ∀ t, (stepAwait s).resState = some t → coreEq s.q t.q := by
  intro t h
  rw [stepAwait_q s t h]
  exact coreEq_refl _

lemma sendMessage_pres (e : Event) (m : QMsg) (okO : Bool) (s : PEState) :
    ∀ t, (sendMessage e m okO s).resState = some t → coreEq s.q t.q := by
  unfold sendMessage
  refine bindS_pres coreEq coreEq_trans (stepAwait_pres s) ?_
  intro a t u _ hu
  cases okO with
  | true => simp at hu; rw [← hu]; exact coreEq_refl _
  | false => simp at hu; rw [← hu]; exact clean_event_coreEq _ _

lemma gatherEventData_pres (co : ClientO) (e : Event) (s : PEState) :
    ∀ t, (gatherEventData co e s).resState = some t → coreEq s.q t.q := by
  unfold gatherEventData
  cases hd : e.data with
  | some pb =>
      intro t h; simp at h; rw [← h]; exact coreEq_refl _
  | none =>
      cases hg : co.gather with
      | sendFail =>
          refine bindS_pres coreEq coreEq_trans (sendMessage_pres e QMsg.send_data false s) ?_
          intro a t u _ hu; simp at hu; rw [← hu]; exact coreEq_refl _
      | recvFail =>
          refine bindS_pres coreEq coreEq_trans (sendMessage_pres e QMsg.send_data true s) ?_
          intro a t u _ hu
          refine bindS_pres coreEq coreEq_trans (stepAwait_pres t) ?_ u hu
          intro a' t' u' _ hu'; simp at hu'; rw [← hu']
          exact clean_event_coreEq _ _
      | ok =>
          refine bindS_pres coreEq coreEq_trans (sendMessage_pres e QMsg.send_data true s) ?_
          intro a t u _ hu
          refine bindS_pres coreEq coreEq_trans (stepAwait_pres t) ?_ u hu
          intro a' t' u' _ hu'; simp at hu'; rw [← hu']; exact coreEq_refl _

lemma gatherOne_pres (co : ClientO) (e : Event) (s : PEState) :
    ∀ t, (gatherOne co e s).resState = some t → coreEq s.q t.q := by
  unfold gatherOne
  refine bindS_pres coreEq coreEq_trans (gatherEventData_pres co e s) ?_
  intro r t u _ hu
  refine bindS_pres coreEq coreEq_trans ?_ ?_ u hu
  · cases hr : r.1 with
    | true => exact sendMessage_pres _ _ _ t
    | false => intro v hv; simp at hv; rw [← hv]; exact coreEq_refl _
  · intro a' t' u' _ hu'
    simp at hu'
    rw [← hu']
    cases a' <;> exact coreEq_refl _

lemma gatherPhase_pres (cO : Nat → ClientO) :
    ∀ (es : List Event) (s : PEState) t,
      (gatherPhase cO es s).resState = some t → coreEq s.q t.q := by
  intro es
  induction es with
  | nil => intro s t h; simp [gatherPhase] at h; rw [← h]; exact coreEq_refl _
  | cons e es ih =>
      intro s
      refine bindS_pres coreEq coreEq_trans (gatherOne_pres (cO e.id) e s) ?_
      intro a t u _ hu
      exact ih t u hu

lemma broadcastMsgs_pres (m : QMsg) :
    ∀ (es : List Event) (s : PEState) t,
      (broadcastMsgs es m s).resState = some t → coreEq s.q t.q := by
  intro es
  induction es with
  | nil => intro s t h; simp [broadcastMsgs] at h; rw [← h]; exact coreEq_refl _
  | cons e es ih =>
      intro s
      refine bindS_pres coreEq coreEq_trans (sendMessage_pres e m true s) ?_
      intro a t u _ hu
      exact ih t u hu

lemma callPrediction_pres (awake : List Event) (leg : PResponse) (s : PEState) :
    ∀ t, (callPrediction awake leg s).resState = some t → estEq s.q t.q := by
  unfold callPrediction
  cases hh : awake.head? with
  | none => intro t h; simp at h; rw [← h]; exact estEq_refl _
  | some e0 =>
      cases hd : e0.data.isNone with
      | true =>
          intro t h; simp [hd] at h; rw [← h]; exact estEq_refl _
      | false =>
          simp only [hd, Bool.false_eq_true, if_false]
          refine bindS_pres estEq estEq_trans
            (fun t ht => coreEq_estEq (stepAwait_pres s t ht)) ?_
          intro a t u _ hu
          simp at hu
          rw [← hu]
          exact ⟨rfl, rfl, rfl, rfl, rfl, rfl, rfl⟩

/-- If `callPrediction` returns normally, the returned response is the
oracle's leg. -/
lemma callPrediction_ok (awake : List Event) (leg : PResponse) (s : PEState)
    {r : PResponse} {t : PEState} (h : callPrediction awake leg s = StepRes.ok r t) :
    r = leg := by
  unfold callPrediction at h
  cases hh : awake.head? with
  | none => rw [hh] at h; simp at h
  | some e0 =>
      rw [hh] at h
      cases hd : e0.data.isNone with
      | true => simp [hd] at h
      | false =>
          simp only [hd, Bool.false_eq_true, if_false] at h
          unfold stepAwait at h
          cases hf : s.fuel with
          | none => rw [hf] at h; simp at h; exact h.1.symm
          | some n =>
              cases n with
              | zero => rw [hf] at h; simp at h
              | succ m => rw [hf] at h; simp at h; exact h.1.symm

lemma genLoopRun_pres (awake : List Event) :
    ∀ (legs : List PResponse) (cur : PResponse) (s : PEState) t,
      (genLoopRun awake legs cur s).resState = some t → estEq s.q t.q := by
  intro legs
  induction legs with
  | nil =>
      intro cur s
      rw [genLoopRun]
      refine bindS_pres estEq estEq_trans
        (fun t ht => coreEq_estEq (broadcastMsgs_pres _ awake s t ht)) ?_
      intro a t u _ hu
      simp at hu
  | cons l ls ih =>
      intro cur s
      rw [genLoopRun]
      refine bindS_pres estEq estEq_trans
        (fun t ht => coreEq_estEq (broadcastMsgs_pres _ awake s t ht)) ?_
      intro a t u _ hu
      refine bindS_pres estEq estEq_trans (callPrediction_pres awake l t) ?_ u hu
      intro r t' u' hr hu'
      cases hgen : r.is_generating with
      | true =>
          rw [hgen] at hu'
          simp at hu'
          exact ih r t' u' hu'
      | false =>
          rw [hgen] at hu'
          simp at hu'
          rw [← hu']
          exact estEq_refl _

lemma genFinalAux_gen (cur l : PResponse) (ls : List PResponse)
    (hg : cur.is_generating = true) :
    genFinalAux cur (l :: ls) = genFinalAux l ls := by
  rw [genFinalAux.eq_def]
  simp [hg]

lemma genFinalAux_nongen (cur : PResponse) (legs : List PResponse)
    (hg : cur.is_generating = false) :
    genFinalAux cur legs = some cur := by
  rw [genFinalAux.eq_def]
  simp [hg]

/-- If the generating loop exits normally, the response it stopped on is the
first non-generating one of the oracle's sequence. -/
lemma genLoopRun_ok_final (awake : List Event) :
    ∀ (legs : List PResponse) (cur : PResponse) (s : PEState)
      (old fin : PResponse) (t : PEState),
      cur.is_generating = true →
      genLoopRun awake legs cur s = StepRes.ok (old, fin) t →
      genFinalAux cur legs = some fin := by
  intro legs
  induction legs with
  | nil =>
      intro cur s old fin t hg h
      rw [genLoopRun] at h
      cases hb : broadcastMsgs awake
          (QMsg.process_generating cur.payload (cur.status == 200)) s with
      | ok a s1 => rw [hb] at h; simp at h
      | exn s1 => rw [hb] at h; simp at h
      | diverge => rw [hb] at h; simp at h
  | cons l ls ih =>
      intro cur s old fin t hg h
      rw [genLoopRun] at h
      cases hb : broadcastMsgs awake
          (QMsg.process_generating cur.payload (cur.status == 200)) s with
      | exn s1 => rw [hb] at h; simp at h
      | diverge => rw [hb] at h; simp at h
      | ok a s1 =>
          rw [hb] at h
          simp only [bindS_ok] at h
          cases hc : callPrediction awake l s1 with
          | exn s2 => rw [hc] at h; simp at h
          | diverge => rw [hc] at h; simp at h
          | ok r s2 =>
              rw [hc] at h
              simp only [bindS_ok] at h
              have hr : r = l := callPrediction_ok awake l s1 hc
              subst hr
              rw [genFinalAux_gen cur r ls hg]
              cases hgen : r.is_generating with
              | true =>
                  rw [hgen] at h
                  simp only [if_true] at h
                  exact ih r s2 old fin t hgen h
              | false =>
                  rw [hgen] at h
                  simp at h
                  obtain ⟨⟨h1, h2⟩, h3⟩ := h
                  rw [genFinalAux_nongen r ls hgen, h2]

/-- What the body of `process_events` guarantees about the final state `t`
relative to the entry state `s`: the slot table is untouched, and the
estimator is either untouched or was fed — exactly once, additively — the
whole elapsed time of the cycle, and that only when the cycle's final
response (`cycleFinal`) has HTTP status 200. -/
def BodyGoal (s : PEState) (legs : List PResponse) (t : PEState) : Prop :=
  t.q.active_jobs = s.q.active_jobs ∧
  ((t.q.duration_history_total = s.q.duration_history_total ∧
    t.q.duration_history_count = s.q.duration_history_count ∧
    t.q.avg_process_time = s.q.avg_process_time ∧
    t.q.avg_concurrent_process_time = s.q.avg_concurrent_process_time ∧
    t.q.queue_duration = s.q.queue_duration) ∨
   (∃ fin, cycleFinal legs = some fin ∧ fin.status = 200 ∧
     t.q.duration_history_total =
       s.q.duration_history_total + (t.q.clock - s.q.clock) ∧
     t.q.duration_history_count = s.q.duration_history_count + 1 ∧
     t.q.avg_process_time =
       some (t.q.duration_history_total / (t.q.duration_history_count : ℚ)) ∧
     t.q.avg_concurrent_process_time =
       some ((t.q.duration_history_total / (t.q.duration_history_count : ℚ)) /
         ((min s.q.max_thread_count t.q.duration_history_count : Nat) : ℚ))))

lemma BodyGoal_of_estEq {s t : PEState} (legs : List PResponse)
    (h : estEq s.q t.q) : BodyGoal s legs t := by
  obtain ⟨h1, h2, h3, h4, h5, h6, h7⟩ := h
  exact ⟨h1, Or.inl ⟨h2, h3, h4, h5, h6⟩⟩

lemma BodyGoal_update (s s5 : PEState) (legs : List PResponse) (fin : PResponse)
    (hest : estEq s.q s5.q) (hcf : cycleFinal legs = some fin)
    (hst : fin.status = 200) :
    BodyGoal s legs
      { s5 with q := s5.q.update_estimation (s5.q.clock - s.q.clock) } := by
  obtain ⟨h1, h2, h3, h4, h5, h6, h7⟩ := hest
  refine ⟨h1, Or.inr ⟨fin, hcf, hst, ?_, ?_, ?_, ?_⟩⟩
  · simp [Queue.update_estimation, h2]
  · simp [Queue.update_estimation, h3]
  · simp [Queue.update_estimation]
  · simp [Queue.update_estimation, h7]

/-- The body of `process_events` satisfies `BodyGoal` on every exit,
normal or exceptional, whatever the oracles do. -/
lemma processBody_spec (cO : Nat → ClientO) (legs : List PResponse)
    (events : List Event) (s : PEState) :
    ∀ t, (processBodyRun cO legs events s).resState = some t →
      BodyGoal s legs t := by
  intro t ht
  unfold processBodyRun at ht
  cases hgz : gatherPhase cO events s with
  | diverge => rw [hgz] at ht; simp at ht
  | exn s1 =>
      rw [hgz] at ht
      simp only [bindS_exn, resState_exn, Option.some.injEq] at ht
      subst ht
      exact BodyGoal_of_estEq legs
        (coreEq_estEq (gatherPhase_pres cO events s s1 (by rw [hgz]; rfl)))
  | ok a s1 =>
      rw [hgz] at ht
      simp only [bindS_ok] at ht
      have hc1 : coreEq s.q s1.q := gatherPhase_pres cO events s s1 (by rw [hgz]; rfl)
      by_cases hemp : s1.awake.isEmpty = true
      · simp only [hemp, if_true, resState_ok, Option.some.injEq] at ht
        subst ht
        exact BodyGoal_of_estEq legs (coreEq_estEq hc1)
      · rw [if_neg hemp] at ht
        cases legs with
        | nil => simp at ht
        | cons l1 rest =>
            dsimp only at ht
            cases hcall : callPrediction s1.awake l1 s1 with
            | diverge => rw [hcall] at ht; simp at ht
            | exn s2 =>
                rw [hcall] at ht
                simp only [bindS_exn, resState_exn, Option.some.injEq] at ht
                subst ht
                refine BodyGoal_of_estEq _ (estEq_trans (coreEq_estEq hc1) ?_)
                exact callPrediction_pres _ l1 s1 s2 (by rw [hcall]; rfl)
            | ok r s2 =>
                have hrl : r = l1 := callPrediction_ok _ l1 s1 hcall
                subst hrl
                rw [hcall] at ht
                simp only [bindS_ok] at ht
                have hc2 : estEq s.q s2.q :=
                  estEq_trans (coreEq_estEq hc1)
                    (callPrediction_pres _ _ s1 s2 (by rw [hcall]; rfl))
                cases hex : r.has_exception with
                | true =>
                    rw [hex] at ht
                    simp only [if_true] at ht
                    cases hbc : broadcastMsgs s1.awake
                        (QMsg.process_completed_error r.exn_detail) s2 with
                    | diverge => rw [hbc] at ht; simp at ht
                    | exn s3 =>
                        rw [hbc] at ht
                        simp only [bindS_exn, resState_exn, Option.some.injEq] at ht
                        subst ht
                        refine BodyGoal_of_estEq _ (estEq_trans hc2 ?_)
                        exact coreEq_estEq (broadcastMsgs_pres _ s1.awake s2 _ (by rw [hbc]; rfl))
                    | ok u s3 =>
                        rw [hbc] at ht
                        simp only [bindS_ok] at ht
                        have hc3 : estEq s.q s3.q :=
                          estEq_trans hc2
                            (coreEq_estEq (broadcastMsgs_pres _ s1.awake s2 _ (by rw [hbc]; rfl)))
                        cases hst : (r.status == 200) with
                        | true =>
                            rw [hst] at ht
                            simp only [if_true, resState_ok, Option.some.injEq] at ht
                            subst ht
                            rw [hc1.2]
                            refine BodyGoal_update s s3 (r :: rest) r hc3 ?_ ?_
                            · simp [cycleFinal, hex]
                            · simpa using hst
                        | false =>
                            rw [hst] at ht
                            simp only [Bool.false_eq_true, if_false, resState_ok, Option.some.injEq] at ht
                            subst ht
                            exact BodyGoal_of_estEq _ hc3
                | false =>
                    rw [hex] at ht
                    simp only [Bool.false_eq_true, if_false] at ht
                    cases hgen : r.is_generating with
                    | true =>
                        rw [hgen] at ht
                        simp only [if_true] at ht
                        cases hloop : genLoopRun s1.awake rest r s2 with
                        | diverge => rw [hloop] at ht; simp at ht
                        | exn s3 =>
                            rw [hloop] at ht
                            simp only [bindS_exn, resState_exn, Option.some.injEq] at ht
                            subst ht
                            refine BodyGoal_of_estEq _ (estEq_trans hc2 ?_)
                            exact genLoopRun_pres s1.awake rest r s2 _ (by rw [hloop]; rfl)
                        | ok pr s3 =>
                            obtain ⟨old, fin⟩ := pr
                            have hfin : genFinalAux r rest = some fin :=
                              genLoopRun_ok_final s1.awake rest r s2 old fin s3 hgen hloop
                            have hc3 : estEq s.q s3.q :=
                              estEq_trans hc2
                                (genLoopRun_pres s1.awake rest r s2 _ (by rw [hloop]; rfl))
                            rw [hloop] at ht
                            simp only [bindS_ok] at ht
                            cases hbc : broadcastMsgs s1.awake
                                (QMsg.process_completed old.payload (old.status == 200)) s3 with
                            | diverge => rw [hbc] at ht; simp at ht
                            | exn s4 =>
                                rw [hbc] at ht
                                simp only [bindS_exn, resState_exn, Option.some.injEq] at ht
                                subst ht
                                refine BodyGoal_of_estEq _ (estEq_trans hc3 ?_)
                                exact coreEq_estEq
                                  (broadcastMsgs_pres _ s1.awake s3 _ (by rw [hbc]; rfl))
                            | ok u s4 =>
                                rw [hbc] at ht
                                simp only [bindS_ok] at ht
                                have hc4 : estEq s.q s4.q :=
                                  estEq_trans hc3
                                    (coreEq_estEq
                                      (broadcastMsgs_pres _ s1.awake s3 _ (by rw [hbc]; rfl)))
                                cases hst : (fin.status == 200) with
                                | true =>
                                    rw [hst] at ht
                                    simp only [if_true, resState_ok, Option.some.injEq] at ht
                                    subst ht
                                    rw [hc1.2]
                                    refine BodyGoal_update s s4 (r :: rest) fin hc4 ?_ ?_
                                    · simp [cycleFinal, hex, hfin]
                                    · simpa using hst
                                | false =>
                                    rw [hst] at ht
                                    simp only [Bool.false_eq_true, if_false, resState_ok, Option.some.injEq] at ht
                                    subst ht
                                    exact BodyGoal_of_estEq _ hc4
                    | false =>
                        rw [hgen] at ht
                        simp only [Bool.false_eq_true, if_false] at ht
                        cases hbc : broadcastMsgs s1.awake
                            (QMsg.process_completed r.payload (r.status == 200)) s2 with
                        | diverge => rw [hbc] at ht; simp at ht
                        | exn s3 =>
                            rw [hbc] at ht
                            simp only [bindS_exn, resState_exn, Option.some.injEq] at ht
                            subst ht
                            refine BodyGoal_of_estEq _ (estEq_trans hc2 ?_)
                            exact coreEq_estEq
                              (broadcastMsgs_pres _ s1.awake s2 _ (by rw [hbc]; rfl))
                        | ok u s3 =>
                            rw [hbc] at ht
                            simp only [bindS_ok] at ht
                            have hc3 : estEq s.q s3.q :=
                              estEq_trans hc2
                                (coreEq_estEq
                                  (broadcastMsgs_pres _ s1.awake s2 _ (by rw [hbc]; rfl)))
                            cases hst : (r.status == 200) with
                            | true =>
                                rw [hst] at ht
                                simp only [if_true, resState_ok, Option.some.injEq] at ht
                                subst ht
                                rw [hc1.2]
                                refine BodyGoal_update s s3 (r :: rest) r hc3 ?_ ?_
                                · simp [cycleFinal, hex, genFinalAux_nongen r rest hgen]
                                · simpa using hst
                            | false =>
                                rw [hst] at ht
                                simp only [Bool.false_eq_true, if_false, resState_ok, Option.some.injEq] at ht
                                subst ht
                                exact BodyGoal_of_estEq _ hc3

/-- Whenever `process_events` finishes — normally, after the empty-awake
early return, after the upstream-error branch, or after an injected
exception — the slot table of the resulting state is exactly the input table
with the first cell holding this batch blanked, and the estimator was either
untouched or fed one status-gated cycle. -/
lemma process_events_spec (q : Queue) (cO : Nat → ClientO) (legs : List PResponse)
    (fuel : Option Nat) (events : List Event) (batch : Bool) :
    ∀ p, q.process_events cO legs fuel events batch = some p →
      p.1.active_jobs = releaseSlot q.active_jobs events ∧
      ((p.1.duration_history_total = q.duration_history_total ∧
        p.1.duration_history_count = q.duration_history_count ∧
        p.1.avg_process_time = q.avg_process_time ∧
        p.1.avg_concurrent_process_time = q.avg_concurrent_process_time ∧
        p.1.queue_duration = q.queue_duration) ∨
       (∃ fin, cycleFinal legs = some fin ∧ fin.status = 200 ∧
         p.1.duration_history_total =
           q.duration_history_total + (p.1.clock - q.clock) ∧
         p.1.duration_history_count = q.duration_history_count + 1 ∧
         p.1.avg_process_time =
           some (p.1.duration_history_total / (p.1.duration_history_count : ℚ)) ∧
         p.1.avg_concurrent_process_time =
           some ((p.1.duration_history_total / (p.1.duration_history_count : ℚ)) /
             ((min q.max_thread_count p.1.duration_history_count : Nat) : ℚ)))) := by
  intro p hp
  unfold Queue.process_events at hp
  dsimp only at hp
  cases hb : processBodyRun cO legs events ⟨q, [], [], fuel⟩ with
  | diverge => rw [hb] at hp; simp at hp
  | ok a t =>
      rw [hb] at hp
      simp only [Option.some.injEq] at hp
      obtain ⟨hjobs, hdisj⟩ :=
        processBody_spec cO legs events ⟨q, [], [], fuel⟩ t (by rw [hb]; rfl)
      subst hp
      constructor
      · simp [finalizeCleanup]
        rw [hjobs]
      · rcases hdisj with h | ⟨fin, h1, h2, h3, h4, h5, h6⟩
        · left
          simpa [finalizeCleanup] using h
        · right
          exact ⟨fin, h1, h2, by simpa [finalizeCleanup] using h3,
            by simpa [finalizeCleanup] using h4,
            by simpa [finalizeCleanup] using h5,
            by simpa [finalizeCleanup] using h6⟩
  | exn t =>
      rw [hb] at hp
      simp only [Option.some.injEq] at hp
      obtain ⟨hjobs, hdisj⟩ :=
        processBody_spec cO legs events ⟨q, [], [], fuel⟩ t (by rw [hb]; rfl)
      subst hp
      constructor
      · simp [finalizeCleanup]
        rw [hjobs]
      · rcases hdisj with h | ⟨fin, h1, h2, h3, h4, h5, h6⟩
        · left
          simpa [finalizeCleanup] using h
        · right
          exact ⟨fin, h1, h2, by simpa [finalizeCleanup] using h3,
            by simpa [finalizeCleanup] using h4,
            by simpa [finalizeCleanup] using h5,
            by simpa [finalizeCleanup] using h6⟩

lemma countOcc_nil [DecidableEq α] (x : α) : countOcc x ([] : List α) = 0 := rfl

lemma countOcc_cons [DecidableEq α] (x a : α) (l : List α) :
    countOcc x (a :: l) = (if a = x then 1 else 0) + countOcc x l := by
  by_cases h : a = x
  · simp [countOcc, h]
    omega
  · simp [countOcc, h]

/-- `releaseSlot` on a table holding the batch exactly once: the first (only)
cell holding it is blanked, nothing else changes, and no cell holds the batch
afterwards. -/
lemma releaseSlot_spec :
    ∀ (jobs : List (Option (List Event))) (evs : List Event),
      countOcc (some evs) jobs = 1 →
      ∃ i, jobs.get? i = some (some evs) ∧
        releaseSlot jobs evs = jobs.set i none ∧
        countOcc (some evs) (releaseSlot jobs evs) = 0 := by
  intro jobs
  induction jobs with
  | nil => intro evs h; simp [countOcc_nil] at h
  | cons c rest ih =>
      intro evs h
      by_cases hc : c = some evs
      · have hr : countOcc (some evs) rest = 0 := by
          rw [countOcc_cons, if_pos hc] at h
          omega
        have hrel : releaseSlot (c :: rest) evs = none :: rest := by
          rw [releaseSlot.eq_def]
          simp [hc]
        refine ⟨0, ?_, ?_, ?_⟩
        · simp [hc]
        · rw [hrel]; rfl
        · rw [hrel, countOcc_cons]
          simp [hr]
      · have h1 : countOcc (some evs) rest = 1 := by
          rw [countOcc_cons, if_neg hc] at h
          omega
        have hrel : releaseSlot (c :: rest) evs = c :: releaseSlot rest evs := by
          rw [releaseSlot.eq_def]
          simp [hc]
        obtain ⟨i, g1, g2, g3⟩ := ih evs h1
        refine ⟨i + 1, ?_, ?_, ?_⟩
        · simpa using g1
        · rw [hrel, g2]; rfl
        · rw [hrel, countOcc_cons, if_neg hc, g3]

/-- Storing a batch in the first free cell adds exactly one occurrence. -/
lemma storeFirstFree_count :
    ∀ (jobs : List (Option (List Event))) (evs : List Event),
      (none : Option (List Event)) ∈ jobs →
      countOcc (some evs) (storeFirstFree jobs evs) = countOcc (some evs) jobs + 1 := by
  intro jobs
  induction jobs with
  | nil => intro evs h; simp at h
  | cons c rest ih =>
      intro evs h
      by_cases hc : c = none
      · have hst : storeFirstFree (c :: rest) evs = some evs :: rest := by
          rw [storeFirstFree.eq_def]
          simp [hc]
        rw [hst, countOcc_cons, countOcc_cons, if_pos rfl, if_neg (by simp [hc])]
        omega
      · have hm : (none : Option (List Event)) ∈ rest := by
          rcases List.mem_cons.mp h with h' | h'
          · exact absurd h'.symm hc
          · exact h'
        have hst : storeFirstFree (c :: rest) evs = c :: storeFirstFree rest evs := by
          rw [storeFirstFree.eq_def]
          simp [hc]
        rw [hst, countOcc_cons, countOcc_cons, ih evs hm]
        omega

lemma get_events_in_batch_jobs (q : Queue) :
    (q.get_events_in_batch).2.active_jobs = q.active_jobs := by
  unfold Queue.get_events_in_batch
  cases q.event_queue with
  | nil => rfl
  | cons f rest =>
      dsimp only
      split <;> rfl

/-- When the dispatcher claims a slot for a batch, the new slot table is the
old one with the batch stored in the first free cell (and a free cell
existed). -/
lemma dispatchOnce_some (q : Queue) (evs : List Event) (batch : Bool)
    (h : (dispatchOnce q).2 = some (evs, batch)) :
    (dispatchOnce q).1.active_jobs = storeFirstFree q.active_jobs evs ∧
    (none : Option (List Event)) ∈ q.active_jobs := by
  unfold dispatchOnce at h ⊢
  by_cases he : q.event_queue.isEmpty = true
  · rw [if_pos he] at h; simp at h
  · rw [if_neg he] at h ⊢
    by_cases hm : (none : Option (List Event)) ∈ q.active_jobs
    · rw [if_pos hm] at h ⊢
      dsimp only at h ⊢
      cases hg : (q.get_events_in_batch).1.1 with
      | none =>
          rw [hg] at h
          simp at h
      | some evs2 =>
          rw [hg] at h
          dsimp only at h ⊢
          simp only [Option.some.injEq, Prod.mk.injEq] at h
          obtain ⟨h1, _⟩ := h
          subst h1
          refine ⟨?_, hm⟩
          simp [get_events_in_batch_jobs]
    · rw [if_neg hm] at h; simp at h

/-- C1: when the dispatcher claims a slot for a freshly extracted batch (the
batch object is new, so no other cell holds it), exactly one cell holds it;
and on every exit of `process_events` for that batch — normal completion,
the empty-awake-set early return, the upstream-error branch (`legs` head with
`has_exception`), or an exception injected at any await point (`fuel`) — the
resulting slot table is the claimed table with exactly that one cell set back
to empty, so no cell holds the batch afterwards. -/
theorem dispatched_slot_released (q : Queue) (cO : Nat → ClientO)
    (legs : List PResponse) (fuel : Option Nat) (evs : List Event) (batch : Bool)
    (hfresh : countOcc (some evs) q.active_jobs = 0)
    (hdisp : (dispatchOnce q).2 = some (evs, batch)) :
    countOcc (some evs) (dispatchOnce q).1.active_jobs = 1 ∧
    ∀ p, (dispatchOnce q).1.process_events cO legs fuel evs batch = some p →
      ∃ i, (dispatchOnce q).1.active_jobs.get? i = some (some evs) ∧
        p.1.active_jobs = (dispatchOnce q).1.active_jobs.set i none ∧
        countOcc (some evs) p.1.active_jobs = 0 := by
  obtain ⟨hjobs, hmem⟩ := dispatchOnce_some q evs batch hdisp
  have hcount : countOcc (some evs) (dispatchOnce q).1.active_jobs = 1 := by
    rw [hjobs, storeFirstFree_count q.active_jobs evs hmem, hfresh]
  refine ⟨hcount, ?_⟩
  intro p hp
  have hrel := (process_events_spec (dispatchOnce q).1 cO legs fuel evs batch p hp).1
  obtain ⟨i, g1, g2, g3⟩ := releaseSlot_spec (dispatchOnce q).1.active_jobs evs hcount
  refine ⟨i, g1, ?_, ?_⟩
  · rw [hrel, g2]
  · rw [hrel]; exact g3

/-- A one-slot queue holding one healthy event, used to instantiate the slot
lifecycle and estimation theorems. -/
def slotDemoEvent : Event := ⟨0, some ⟨5⟩, none, 0, "foo", none⟩

def slotDemoQueue : Queue :=
  { Queue.init false 1 none (fun _ => ⟨false, 0⟩) with event_queue := [slotDemoEvent] }

/-- Witness for C1: the demo queue dispatches its single event into its single
slot and a one-leg HTTP-200 run of `process_events` frees it. -/
theorem dispatched_slot_released_witness :
    countOcc (some [slotDemoEvent]) (dispatchOnce slotDemoQueue).1.active_jobs = 1 ∧
    ∀ p, (dispatchOnce slotDemoQueue).1.process_events healthyClient
        [{ status := 200, payload := 7, duration := 2 }] none [slotDemoEvent] false =
          some p →
      ∃ i, (dispatchOnce slotDemoQueue).1.active_jobs.get? i =
          some (some [slotDemoEvent]) ∧
        p.1.active_jobs = (dispatchOnce slotDemoQueue).1.active_jobs.set i none ∧
        countOcc (some [slotDemoEvent]) p.1.active_jobs = 0 :=
  dispatched_slot_released slotDemoQueue healthyClient
    [{ status := 200, payload := 7, duration := 2 }] none [slotDemoEvent] false
    (by decide) (by decide)

/-- C5 as amended: on any finished `process_events` run, the estimation state
(duration total, completed-cycle count, both averages, and the derived queue
ETA) is either completely untouched — in particular on the empty-awake early
return, on a cycle whose gating response does not have status 200, and on any
injected exception — or, exactly when the cycle's gating response
(`cycleFinal`: the upstream-error response, else the final non-generating
response) has HTTP status 200, it accumulates exactly one sample: the count
grows by one and the total grows by the elapsed wall-clock time of the
*whole* cycle (`p.1.clock - q.clock`, spanning every prediction leg — not
just the final leg; see the counterexample), with the averages recomputed
from the new totals.  Nothing ever resets or shrinks the history. -/
theorem estimation_update_gating (q : Queue) (cO : Nat → ClientO)
    (legs : List PResponse) (fuel : Option Nat) (events : List Event) (batch : Bool) :
    ∀ p, q.process_events cO legs fuel events batch = some p →
      ((p.1.duration_history_total = q.duration_history_total ∧
        p.1.duration_history_count = q.duration_history_count ∧
        p.1.avg_process_time = q.avg_process_time ∧
        p.1.avg_concurrent_process_time = q.avg_concurrent_process_time ∧
        p.1.queue_duration = q.queue_duration) ∨
       (∃ fin, cycleFinal legs = some fin ∧ fin.status = 200 ∧
         p.1.duration_history_total =
           q.duration_history_total + (p.1.clock - q.clock) ∧
         p.1.duration_history_count = q.duration_history_count + 1 ∧
         p.1.avg_process_time =
           some (p.1.duration_history_total / (p.1.duration_history_count : ℚ)) ∧
         p.1.avg_concurrent_process_time =
           some ((p.1.duration_history_total / (p.1.duration_history_count : ℚ)) /
             ((min q.max_thread_count p.1.duration_history_count : Nat) : ℚ)))) :=
  fun p hp => (process_events_spec q cO legs fuel events batch p hp).2

/-- Witness for C5 (amended), at an empty batch: `process_events` finishes via
the early return and the estimation state is untouched. -/
theorem estimation_update_gating_witness :
    ((slotDemoQueue.duration_history_total = slotDemoQueue.duration_history_total ∧
      slotDemoQueue.duration_history_count = slotDemoQueue.duration_history_count ∧
      slotDemoQueue.avg_process_time = slotDemoQueue.avg_process_time ∧
      slotDemoQueue.avg_concurrent_process_time =
        slotDemoQueue.avg_concurrent_process_time ∧
      slotDemoQueue.queue_duration = slotDemoQueue.queue_duration) ∨
     (∃ fin, cycleFinal [] = some fin ∧ fin.status = 200 ∧
       slotDemoQueue.duration_history_total =
         slotDemoQueue.duration_history_total +
           (slotDemoQueue.clock - slotDemoQueue.clock) ∧
       slotDemoQueue.duration_history_count =
         slotDemoQueue.duration_history_count + 1 ∧
       slotDemoQueue.avg_process_time =
         some (slotDemoQueue.duration_history_total /
           (slotDemoQueue.duration_history_count : ℚ)) ∧
       slotDemoQueue.avg_concurrent_process_time =
         some ((slotDemoQueue.duration_history_total /
           (slotDemoQueue.duration_history_count : ℚ)) /
             ((min slotDemoQueue.max_thread_count
               slotDemoQueue.duration_history_count : Nat) : ℚ)))) :=
  estimation_update_gating slotDemoQueue healthyClient [] none [] false
    (slotDemoQueue, []) rfl

/-- Counterexample for C5: a streaming cycle with two legs of duration 1 each
(one generating, then the final leg, both HTTP 200) feeds the estimator the
*whole* elapsed time 2 — not the final successful leg's duration 1 as the
claim states. -/
theorem streaming_duration_counterexample :
    ((Queue.init false 1 none (fun _ => ⟨false, 0⟩)).process_events healthyClient
        [⟨false, "", 200, true, 10, 1⟩, ⟨false, "", 200, false, 20, 1⟩] none
        [slotDemoEvent] false).map (fun p => p.1.duration_history_total) = some 2 ∧
    (⟨false, "", 200, false, 20, 1⟩ : PResponse).duration = 1 ∧
    (2 : ℚ) ≠ 1 := by
  refine ⟨?_, rfl, by norm_num⟩
  simp [Queue.process_events, processBodyRun, gatherPhase, gatherOne, gatherEventData,
    sendMessage, stepAwait, bindS, broadcastMsgs, callPrediction, genLoopRun,
    finalizeCleanup, releaseSlot, Queue.update_estimation, Queue.clean_event,
    slotDemoEvent, Queue.init, healthyClient]
  norm_num

/-! ### Exact runs of the streaming branch (claim C4) -/

lemma msgsOfKindTo_append (eid : Nat) (a b : List (Nat × QMsg)) :
    msgsOfKindTo eid (a ++ b) = msgsOfKindTo eid a ++ msgsOfKindTo eid b := by
  simp [msgsOfKindTo]

lemma msgsOfKindTo_cons (eid : Nat) (p : Nat × QMsg) (tr : List (Nat × QMsg)) :
    msgsOfKindTo eid (p :: tr) =
      (if p.1 = eid ∧ isGenOrCompleted p.2 = true then [p.2] else []) ++
        msgsOfKindTo eid tr := by
  by_cases h1 : p.1 = eid <;> by_cases h2 : isGenOrCompleted p.2 = true <;>
    simp [msgsOfKindTo, List.filter_cons, h1, h2]

lemma msgsOfKindTo_broadcast (eid : Nat) (m : QMsg) :
    ∀ es : List Event,
      msgsOfKindTo eid (es.map (fun x => (x.id, m))) =
        if isGenOrCompleted m then
          List.replicate (countOcc eid (es.map Event.id)) m
        else [] := by
  intro es
  induction es with
  | nil =>
      cases hm : isGenOrCompleted m <;> simp [msgsOfKindTo, countOcc, hm]
  | cons x es ih =>
      rw [List.map_cons, msgsOfKindTo_cons, ih, List.map_cons, countOcc_cons]
      by_cases hx : x.id = eid <;> cases hm : isGenOrCompleted m <;>
        simp [hx, hm, List.replicate_add]

lemma gatherPhase_healthy :
    ∀ (es : List Event) (s : PEState), s.fuel = none →
      (∀ x ∈ es, x.data.isSome = true) →
      gatherPhase healthyClient es s =
        StepRes.ok ()
          { s with
            awake := s.awake ++ es,
            trace := s.trace ++ es.map (fun x => (x.id, QMsg.process_starts)) } := by
  intro es
  induction es with
  | nil =>
      intro s _ _
      simp [gatherPhase]
  | cons e es ih =>
      intro s hf hd
      obtain ⟨pb, hpb⟩ := Option.isSome_iff_exists.mp (hd e (by simp))
      have hone : gatherOne (healthyClient e.id) e s =
          StepRes.ok () { s with
            trace := s.trace ++ [(e.id, QMsg.process_starts)],
            awake := s.awake ++ [e] } := by
        simp [gatherOne, gatherEventData, hpb, healthyClient, sendMessage,
          stepAwait, hf, bindS]
      rw [gatherPhase, hone]
      simp only [bindS_ok]
      rw [ih _ (by simp [hf]) (fun x hx => hd x (by simp [hx]))]
      simp

lemma broadcastMsgs_healthy (m : QMsg) :
    ∀ (es : List Event) (s : PEState), s.fuel = none →
      broadcastMsgs es m s =
        StepRes.ok () { s with trace := s.trace ++ es.map (fun x => (x.id, m)) } := by
  intro es
  induction es with
  | nil => intro s _; simp [broadcastMsgs]
  | cons e es ih =>
      intro s hf
      rw [broadcastMsgs]
      have hsend : sendMessage e m true s =
          StepRes.ok true { s with trace := s.trace ++ [(e.id, m)] } := by
        simp [sendMessage, stepAwait, hf, bindS]
      rw [hsend]
      simp only [bindS_ok]
      rw [ih _ (by simp [hf])]
      simp

lemma callPrediction_healthy (e0 : Event) (tl : List Event) (leg : PResponse)
    (s : PEState) (hf : s.fuel = none) (hd : e0.data.isSome = true) :
    callPrediction (e0 :: tl) leg s =
      StepRes.ok leg { s with q := { s.q with clock := s.q.clock + leg.duration } } := by
  obtain ⟨pb, hpb⟩ := Option.isSome_iff_exists.mp hd
  simp [callPrediction, hpb, stepAwait, hf, bindS]

/-- C4 as amended: in the streaming branch with response sequence
`is_generating = true, true, false`, every awake event (healthy clients, all
payloads present, no injected exception) receives exactly two
`process_generating` messages — carrying the first and second (generating)
responses — followed by exactly one `process_completed` message, in that
order; the `process_completed` message carries the payload and
HTTP-status-derived success flag of the *last generating* response (the
second one), not of the final non-generating response (see the
counterexample). -/
theorem streaming_branch_messages (q : Queue) (es : List Event) (e : Event)
    (l1 l2 l3 : PResponse) (batch : Bool)
    (hdata : ∀ x ∈ es, x.data.isSome = true)
    (he : e ∈ es)
    (hocc : countOcc e.id (es.map Event.id) = 1)
    (hexn : l1.has_exception = false)
    (h1 : l1.is_generating = true) (h2 : l2.is_generating = true)
    (h3 : l3.is_generating = false) :
    (q.process_events healthyClient [l1, l2, l3] none es batch).map
        (fun p => msgsOfKindTo e.id p.2) =
      some [QMsg.process_generating l1.payload (l1.status == 200),
            QMsg.process_generating l2.payload (l2.status == 200),
            QMsg.process_completed l2.payload (l2.status == 200)] := by
  cases es with
  | nil => simp at he
  | cons e0 tl =>
      have hd0 : e0.data.isSome = true := hdata e0 (by simp)
      unfold Queue.process_events processBodyRun
      dsimp only
      rw [gatherPhase_healthy (e0 :: tl) ⟨q, [], [], none⟩ rfl hdata]
      simp only [bindS_ok, List.nil_append]
      rw [callPrediction_healthy e0 tl l1 _ rfl hd0]
      simp only [bindS_ok, hexn, Bool.false_eq_true, if_false, h1, if_true]
      rw [genLoopRun]
      rw [broadcastMsgs_healthy _ _ _ rfl]
      simp only [bindS_ok]
      rw [callPrediction_healthy e0 tl l2 _ rfl hd0]
      simp only [bindS_ok, h2, if_true]
      rw [genLoopRun]
      rw [broadcastMsgs_healthy _ _ _ rfl]
      simp only [bindS_ok]
      rw [callPrediction_healthy e0 tl l3 _ rfl hd0]
      simp only [bindS_ok, h3, Bool.false_eq_true, if_false]
      rw [broadcastMsgs_healthy _ _ _ rfl]
      simp only [bindS_ok]
      rw [List.map_cons, countOcc_cons] at hocc
      cases hst : (l3.status == 200) <;>
        · simp only [hst, if_true, Bool.false_eq_true, if_false]
          rcases eq_or_ne e0.id e.id with he0 | he0
          · rw [if_pos he0] at hocc
            have htl : countOcc e.id (List.map Event.id tl) = 0 := by omega
            simp [msgsOfKindTo_cons, msgsOfKindTo_append, msgsOfKindTo_broadcast,
              htl, he0, isGenOrCompleted]
          · rw [if_neg he0] at hocc
            have htl : countOcc e.id (List.map Event.id tl) = 1 := by omega
            simp [msgsOfKindTo_cons, msgsOfKindTo_append, msgsOfKindTo_broadcast,
              htl, he0, isGenOrCompleted]

/-- Witness for C4 (amended): a two-event batch, responses generating twice
then done; the second event's message stream is exactly two
`process_generating` then one `process_completed` carrying the second
response's payload. -/
theorem streaming_branch_messages_witness :
    ((Queue.init false 1 none (fun _ => ⟨false, 0⟩)).process_events healthyClient
        [⟨false, "", 200, true, 10, 1⟩, ⟨false, "", 200, true, 20, 1⟩,
         ⟨false, "", 200, false, 30, 1⟩] none
        [⟨0, some ⟨1⟩, none, 0, "foo", none⟩, ⟨1, some ⟨2⟩, none, 0, "foo", none⟩]
        true).map
        (fun p => msgsOfKindTo 1 p.2) =
      some [QMsg.process_generating 10 ((200 : Nat) == 200),
            QMsg.process_generating 20 ((200 : Nat) == 200),
            QMsg.process_completed 20 ((200 : Nat) == 200)] :=
  streaming_branch_messages (Queue.init false 1 none (fun _ => ⟨false, 0⟩))
    [⟨0, some ⟨1⟩, none, 0, "foo", none⟩, ⟨1, some ⟨2⟩, none, 0, "foo", none⟩]
    ⟨1, some ⟨2⟩, none, 0, "foo", none⟩
    ⟨false, "", 200, true, 10, 1⟩ ⟨false, "", 200, true, 20, 1⟩
    ⟨false, "", 200, false, 30, 1⟩ true
    (by decide) (by decide) (by decide) rfl rfl rfl rfl

/-- Counterexample for C4: with payloads 10, 20 for the generating responses
and 30 for the final non-generating one, the single `process_completed`
message carries payload 20 (the last *generating* response) — not payload 30
of the last response received, as the claim states. -/
theorem streaming_completed_payload_counterexample :
    ((Queue.init false 1 none (fun _ => ⟨false, 0⟩)).process_events healthyClient
        [⟨false, "", 200, true, 10, 0⟩, ⟨false, "", 200, true, 20, 0⟩,
         ⟨false, "", 200, false, 30, 0⟩] none [slotDemoEvent] false).map
        (fun p => msgsOfKindTo 0 p.2) =
      some [QMsg.process_generating 10 true, QMsg.process_generating 20 true,
            QMsg.process_completed 20 true] ∧
    (⟨false, "", 200, false, 30, 0⟩ : PResponse).payload = 30 ∧
    QMsg.process_completed 20 true ≠ QMsg.process_completed 30 true :=
  ⟨by decide, rfl, by decide⟩

end Gradio
